import Mathlib

/-!
Shallow embedding of the pattern-viz gallery generators
(`generate_gallery.py`, pipeline 1, and `generate_gallery_resnet50.py`,
pipeline 2) and proofs about them.

The file system is modelled explicitly:
* a directory listing is `Option (List DirEntry)` — `none` when the
  directory does not exist, `some entries` otherwise;
* a tree of per-BaseKey variant subdirectories is an association list
  from subdirectory name to the list of file names it contains;
* `path.exists()` checks against such a listing become list membership.

String-level helpers (`pySuffix`, `pyStem`, `strLower`, `htmlEscape`)
model the corresponding Python library functions (`Path.suffix`,
`Path.stem`, `str.lower` restricted to ASCII case-folding, and
`html.escape` with its default `quote=True`).
-/

namespace PatternViz

/-- Code-point lexicographic comparison of char lists: the order Python's
`sorted` uses on the file names of one directory. -/
def lexLe : List Char → List Char → Bool
  | [], _ => true
  | _ :: _, [] => false
  | a :: as, b :: bs =>
    if a < b then true
    else if b < a then false
    else lexLe as bs

/-- Lexicographic comparison of strings by code points. -/
def strLe (a b : String) : Bool := lexLe a.data b.data

theorem lexLe_total : ∀ as bs : List Char, lexLe as bs = true ∨ lexLe bs as = true
  | [], _ => Or.inl rfl
  | _ :: _, [] => Or.inr rfl
  | a :: as, b :: bs => by
    rcases lt_trichotomy a b with h | h | h
    · exact Or.inl (by simp [lexLe, h])
    · subst h
      rcases lexLe_total as bs with ih | ih
      · exact Or.inl (by simp [lexLe, ih])
      · exact Or.inr (by simp [lexLe, ih])
    · exact Or.inr (by simp [lexLe, h])

theorem lexLe_trans :
    ∀ as bs cs : List Char, lexLe as bs = true → lexLe bs cs = true → lexLe as cs = true
  | [], _, _, _, _ => rfl
  | a :: as, [], cs, h, _ => by simp [lexLe] at h
  | a :: as, b :: bs, [], _, h => by simp [lexLe] at h
  | a :: as, b :: bs, c :: cs, h1, h2 => by
    by_cases hab : a < b
    · by_cases hbc : b < c
      · simp [lexLe, lt_trans hab hbc]
      · by_cases hcb : c < b
        · simp [lexLe, hbc, hcb] at h2
        · have : b = c := le_antisymm (not_lt.1 hcb) (not_lt.1 hbc)
          subst this
          simp [lexLe, hab]
    · by_cases hba : b < a
      · simp [lexLe, hab, hba] at h1
      · have hab' : a = b := le_antisymm (not_lt.1 hba) (not_lt.1 hab)
        subst hab'
        by_cases hac : a < c
        · simp [lexLe, hac]
        · by_cases hca : c < a
          · simp [lexLe, hac, hca] at h2
          · have : a = c := le_antisymm (not_lt.1 hca) (not_lt.1 hac)
            subst this
            simp [lexLe, lt_irrefl] at h1 h2 ⊢
            exact lexLe_trans as bs cs h1 h2

theorem lexLe_antisymm :
    ∀ as bs : List Char, lexLe as bs = true → lexLe bs as = true → as = bs
  | [], [], _, _ => rfl
  | [], _ :: _, _, h => by simp [lexLe] at h
  | _ :: _, [], h, _ => by simp [lexLe] at h
  | a :: as, b :: bs, h1, h2 => by
    by_cases hab : a < b
    · simp [lexLe, hab, lt_asymm hab] at h2
    · by_cases hba : b < a
      · simp [lexLe, hab, hba] at h1
      · have hab' : a = b := le_antisymm (not_lt.1 hba) (not_lt.1 hab)
        subst hab'
        simp [lexLe, lt_irrefl] at h1 h2
        simp [lexLe_antisymm as bs h1 h2]

theorem strLe_trans (a b c : String) (h1 : strLe a b = true) (h2 : strLe b c = true) :
    strLe a c = true := lexLe_trans a.data b.data c.data h1 h2

theorem strLe_total (a b : String) : strLe a b = true ∨ strLe b a = true :=
  lexLe_total a.data b.data

theorem strLe_antisymm (a b : String) (h1 : strLe a b = true) (h2 : strLe b a = true) :
    a = b := String.ext (lexLe_antisymm a.data b.data h1 h2)

/-- The sort order on file names, as a decidable relation. -/
def strLeP (a b : String) : Prop := strLe a b = true

instance : DecidableRel strLeP := fun a b => by unfold strLeP; infer_instance

instance : IsTotal String strLeP := ⟨strLe_total⟩

instance : IsTrans String strLeP := ⟨strLe_trans⟩

instance : IsAntisymm String strLeP := ⟨strLe_antisymm⟩

/-- Index of the last `'.'` in a char list (Python `str.rfind('.')`),
`none` when there is no dot. -/
def lastDotIdxAux : List Char → Nat → Option Nat → Option Nat
  | [], _, acc => acc
  | c :: cs, i, acc => lastDotIdxAux cs (i + 1) (if c = '.' then some i else acc)

def lastDotIdx (cs : List Char) : Option Nat := lastDotIdxAux cs 0 none

/-- `Path.suffix`: the extension of the file name, from the last dot,
empty when the last dot is the first character or the last character
(or there is no dot at all). -/
def pySuffix (s : String) : String :=
  match lastDotIdx s.data with
  | none => ""
  | some i => if 0 < i ∧ i + 1 < s.data.length then ⟨s.data.drop i⟩ else ""

/-- `Path.stem`: the file name with `pySuffix` stripped. -/
def pyStem (s : String) : String :=
  match lastDotIdx s.data with
  | none => s
  | some i => if 0 < i ∧ i + 1 < s.data.length then ⟨s.data.take i⟩ else s

/-- ASCII case-folding model of Python `str.lower` (the extension names
compared here are ASCII). -/
def strLower (s : String) : String := ⟨s.data.map Char.toLower⟩

/-- `name.startswith("._")`. -/
def startsWithDotUnderscore (s : String) : Bool :=
  match s.data with
  | c1 :: c2 :: _ => c1 = '.' && c2 = '_'
  | _ => false

/-- One entry of a directory listing: its name and whether it is a
regular file (`p.is_file()`). -/
structure DirEntry where
  name : String
  isFile : Bool
deriving DecidableEq

/-- `ALLOWED_EXTS = {".png", ".jpg", ".jpeg", ".webp"}` (identical in
both pipelines). -/
def ALLOWED_EXTS : List String := [".png", ".jpg", ".jpeg", ".webp"]

/-- The filter of `list_images`:
`p.is_file() and p.suffix.lower() in ALLOWED_EXTS and not p.name.startswith("._")`. -/
def keepEntry (e : DirEntry) : Bool :=
  e.isFile && ALLOWED_EXTS.contains (strLower (pySuffix e.name)) &&
    !(startsWithDotUnderscore e.name)

/-- `list_images` (identical in both pipelines): `[]` when the directory
does not exist, else the sorted filtered listing. -/
def list_images (dir : Option (List DirEntry)) : List String :=
  match dir with
  | none => []
  | some entries => List.insertionSort strLeP ((entries.filter keepEntry).map DirEntry.name)

/-- The extension probing order of both variant resolvers:
`for ext in (".png", ".jpg", ".jpeg", ".webp")`. -/
def EXT_ORDER : List String := [".png", ".jpg", ".jpeg", ".webp"]

/-- The three filename templates, in the fixed order both resolvers use:
`{base}_{method}_cam`, `{base}_{method}_cam_gb`, `{base}_{method}_gb`. -/
def roots3 (base method : String) : List String :=
  [base ++ "_" ++ method ++ "_cam",
   base ++ "_" ++ method ++ "_cam_gb",
   base ++ "_" ++ method ++ "_gb"]

/-- The inner loop of `pick_method_images` for one template root: the
first extension whose file exists in the directory, mapped to the
path relative to the project root (`dirRel` is the directory's own
relative path). -/
def pickRoot (dirRel : String) (files : List String) (root : String) : Option String :=
  (EXT_ORDER.find? (fun ext => files.contains (root ++ ext))).map
    (fun ext => dirRel ++ "/" ++ (root ++ ext))

/-- `pick_method_images` (pipeline 1): `[None, None, None]` when the
directory does not exist, else one independently resolved slot per
template root. -/
def pick_method_images (dirRel : String) (dir : Option (List String))
    (base method : String) : List (Option String) :=
  match dir with
  | none => [none, none, none]
  | some files => (roots3 base method).map (pickRoot dirRel files)

/-- The flattened candidate list of `pick_single_image`'s two nested
loops: all template roots in priority order, each with all extensions
in probing order. -/
def candNames (base method : String) : List String :=
  (roots3 base method).flatMap (fun root => EXT_ORDER.map (fun ext => root ++ ext))

/-- `pick_single_image` (pipeline 2): `None` when the directory does not
exist, else the first existing candidate in `candNames` order (the
nested loops return at the first hit). -/
def pick_single_image (dirRel : String) (dir : Option (List String))
    (base method : String) : Option String :=
  match dir with
  | none => none
  | some files =>
    ((candNames base method).find? (fun c => files.contains c)).map
      (fun c => dirRel ++ "/" ++ c)

/-- Pipeline 1's file-system state under the project root: the listing
of `Chinese/` and, for each of the three method directories, the
association of subdirectory name to the file names inside it (`none`
when the method directory itself does not exist). -/
structure FS1 where
  chinese : Option (List DirEntry)
  layer : Option (List (String × List String))
  hires : Option (List (String × List String))
  score : Option (List (String × List String))

/-- `list_dirs`: the names of the subdirectories of a method directory,
empty when the directory does not exist. -/
def list_dirs (d : Option (List (String × List String))) : List String :=
  match d with
  | none => []
  | some l => l.map Prod.fst

/-- The listing of subdirectory `base` of a method directory. -/
def lookupDir (d : Option (List (String × List String))) (base : String) :
    Option (List String) :=
  match d with
  | none => none
  | some l => (l.find? (fun p => p.1 == base)).map Prod.snd

/-- One row of pipeline 1 (the dict `build_rows` appends). -/
structure Row1 where
  base : String
  chinese : String
  layercam3 : List (Option String)
  hirescam3 : List (Option String)
  scorecam3 : List (Option String)
deriving DecidableEq

/-- The per-method branch of pipeline 1's `build_rows`: the all-`None`
slots unless `base` is among the method directory's subdirectories, in
which case `pick_method_images` resolves inside that subdirectory. -/
def methodSlots (tree : Option (List (String × List String)))
    (topRel base method : String) : List (Option String) :=
  if (list_dirs tree).contains base then
    pick_method_images (topRel ++ "/" ++ base) (lookupDir tree base) base method
  else [none, none, none]

/-- `build_rows` (pipeline 1): one row per enumerated source image. -/
def build_rows (fs : FS1) : List Row1 :=
  (list_images fs.chinese).map (fun nm =>
    { base := pyStem nm
      chinese := "Chinese/" ++ nm
      layercam3 := methodSlots fs.layer "layercam" (pyStem nm) "layercam"
      hirescam3 := methodSlots fs.hires "hirescam" (pyStem nm) "hirescam"
      scorecam3 := methodSlots fs.score "scorecam" (pyStem nm) "scorecam" })

/-- `SECTIONS` (pipeline 2). -/
def SECTIONS : List String :=
  ["nopretrain_singlecrop", "nopretrain_multicrop",
   "pretrain_singlecrop", "pretrain_multicrop"]

/-- Pipeline 2's file-system state: the listing of `Chinese/` and the
variant directories `12.17_ResNet50/<section>/<method>/<base>`, keyed
by `(section, method, base)`; a key that is absent is a directory that
does not exist. -/
structure FS2 where
  chinese : Option (List DirEntry)
  vdirs : List ((String × String × String) × List String)

/-- The listing of the variant directory for `(section, method, base)`. -/
def lookupVDir (fs : FS2) (k : String × String × String) : Option (List String) :=
  (fs.vdirs.find? (fun p => p.1 == k)).map Prod.snd

/-- One row of pipeline 2: BaseKey, source path, and per section the
tuple `(section, layer_img, score_img)`. -/
structure Row2 where
  base : String
  chinese : String
  sections : List (String × Option String × Option String)
deriving DecidableEq

/-- `build_rows` (pipeline 2): one row per enumerated source image, with
one `(section, layer, score)` triple per entry of `SECTIONS`. -/
def build_rows2 (fs : FS2) : List Row2 :=
  (list_images fs.chinese).map (fun nm =>
    { base := pyStem nm
      chinese := "Chinese/" ++ nm
      sections := SECTIONS.map (fun s =>
        (s,
         pick_single_image ("12.17_ResNet50/" ++ s ++ "/layercam/" ++ pyStem nm)
           (lookupVDir fs (s, "layercam", pyStem nm)) (pyStem nm) "layercam",
         pick_single_image ("12.17_ResNet50/" ++ s ++ "/scorecam/" ++ pyStem nm)
           (lookupVDir fs (s, "scorecam", pyStem nm)) (pyStem nm) "scorecam")) })

/-- Python `html.escape` (default `quote=True`) on one character. The
sequential `str.replace` passes of the library function touch disjoint
characters, so they amount to this per-character map. -/
def escChar (c : Char) : String :=
  if c = '&' then "&amp;"
  else if c = '<' then "&lt;"
  else if c = '>' then "&gt;"
  else if c = '"' then "&quot;"
  else if c = Char.ofNat 39 then "&#x27;"
  else String.singleton c

def escList : List Char → List Char
  | [] => []
  | c :: cs => (escChar c).data ++ escList cs

/-- `html.escape(s)`. -/
def htmlEscape (s : String) : String := ⟨escList s.data⟩

/-- The shared CSS block of pipeline 1 (braces written as `\x7b`/`\x7d`). -/
def CSS1 : String :=
  "\n    body \x7b font-family: system-ui, -apple-system, Segoe UI, Roboto, Arial, sans-serif; margin: 16px; \x7d\n    h1 \x7b font-size: 20px; margin: 0 0 12px; \x7d\n    .meta \x7b color: #666; font-size: 12px; margin-bottom: 16px; \x7d\n    table \x7b border-collapse: collapse; width: 100%; table-layout: fixed; \x7d\n    thead th \x7b position: sticky; top: 0; background: #fafafa; z-index: 1; \x7d\n    th, td \x7b border: 1px solid #e5e5e5; vertical-align: top; padding: 6px; \x7d\n    td:first-child, th:first-child \x7b width: 240px; \x7d\n    img.thumb \x7b max-width: 100%; height: auto; display: block; \x7d\n    .row-title \x7b font-weight: 600; font-size: 12px; color: #333; margin-bottom: 6px; word-break: break-all; min-height: 1em; \x7d\n    .scroller \x7b max-height: 480px; overflow: auto; \x7d\n    "

/-- The ten header column labels of pipeline 1's table. -/
def headers1 : List String :=
  ["Source (Chinese)", "LayerCAM 1", "LayerCAM 2", "LayerCAM 3",
   "HiresCAM 1", "HiresCAM 2", "HiresCAM 3",
   "ScoreCAM 1", "ScoreCAM 2", "ScoreCAM 3"]

/-- Pipeline 1's document head up to the row count. -/
def HEAD1_A : String :=
  "<!doctype html>\n<html lang=\"en\">\n<head>\n  <meta charset=\"utf-8\">\n  <meta name=\"viewport\" content=\"width=device-width, initial-scale=1\">\n  <title>Pattern Viz Grid</title>\n  <style>" ++
  CSS1 ++
  "</style>\n</head>\n<body>\n  <h1>Pattern Viz Grid</h1>\n  <div class=\"meta\">Column 1: Chinese source. Then LayerCAM images. Then ScoreCAM images. Total rows: "

/-- Pipeline 1's document head from the row count to `<tbody>`. -/
def HEAD1_B : String :=
  "</div>\n  <table>\n    <thead>\n      <tr>\n" ++
  String.join (headers1.map (fun h => "        <th>" ++ h ++ "</th>\n")) ++
  "      </tr>\n    </thead>\n    <tbody>\n"

def TAIL1 : String := "\n    </tbody>\n  </table>\n</body>\n</html>\n"

/-- The source-image cell (identical f-string in both pipelines);
`baseEsc` is the already escaped BaseKey, as in the Python body. -/
def srcCell (baseEsc chineseImg : String) : String :=
  "\n          <td>\n            <div class=\"row-title\">" ++ baseEsc ++
  "</div>\n            <img class=\"thumb\" src=\"" ++ htmlEscape chineseImg ++
  "\" alt=\"" ++ baseEsc ++ "\">\n          </td>\n        "

/-- One variant cell of pipeline 1: an image cell when the slot holds a
path (paths are never the empty string, so Python's truthiness test on
the slot is the `Option` match), else the structurally present empty
cell. -/
def imgCell1 (baseEsc label : String) (p : Option String) : String :=
  match p with
  | some path =>
    "<td><div class=\"row-title\"></div><img class=\"thumb\" src=\"" ++
      htmlEscape path ++ "\" alt=\"" ++ baseEsc ++ " " ++ label ++ "\"></td>"
  | none => "<td><div class=\"row-title\"></div></td>"

/-- The `cells` list pipeline 1's renderer builds for one row. -/
def renderCells1 (row : Row1) : List String :=
  srcCell (htmlEscape row.base) row.chinese ::
    (row.layercam3.map (imgCell1 (htmlEscape row.base) "LayerCAM") ++
     row.hirescam3.map (imgCell1 (htmlEscape row.base) "HiresCAM") ++
     row.scorecam3.map (imgCell1 (htmlEscape row.base) "ScoreCAM"))

def rowHtml1 (row : Row1) : String :=
  "<tr>\n" ++ String.intercalate "\n" (renderCells1 row) ++ "\n</tr>"

/-- `render_html` (pipeline 1): head, the joined body rows, tail. -/
def render_html (rows : List Row1) : String :=
  HEAD1_A ++ toString rows.length ++ HEAD1_B ++
  String.intercalate "\n" (rows.map rowHtml1) ++ TAIL1

/-- Pipeline 2's CSS block. -/
def CSS2 : String :=
  "\n    body \x7b font-family: system-ui, -apple-system, Segoe UI, Roboto, Arial, sans-serif; margin: 16px; \x7d\n    h1 \x7b font-size: 20px; margin: 0 0 12px; \x7d\n    .meta \x7b color: #666; font-size: 12px; margin-bottom: 16px; \x7d\n    table \x7b border-collapse: collapse; width: 100%; table-layout: fixed; \x7d\n    thead th \x7b position: sticky; top: 0; background: #fafafa; z-index: 1; \x7d\n    th, td \x7b border: 1px solid #e5e5e5; vertical-align: top; padding: 6px; \x7d\n    td:first-child, th:first-child \x7b width: 220px; \x7d\n    img.thumb \x7b max-width: 100%; height: auto; display: block; \x7d\n    .row-title \x7b font-weight: 600; font-size: 12px; color: #333; margin-bottom: 6px; word-break: break-all; min-height: 1em; \x7d\n    .section-label \x7b font-size: 11px; color: #555; margin-bottom: 4px; \x7d\n    "

/-- Pipeline 2's document head up to the row count. -/
def HEAD2_A : String :=
  "<!doctype html>\n<html lang=\"en\">\n<head>\n  <meta charset=\"utf-8\">\n  <meta name=\"viewport\" content=\"width=device-width, initial-scale=1\">\n  <title>Pattern Viz Grid (ResNet50)</title>\n  <style>" ++
  CSS2 ++
  "</style>\n</head>\n<body>\n  <h1>Pattern Viz Grid (ResNet50)</h1>\n  <div class=\"meta\">Source column: Chinese image. Then 4 sections (nopretrain_singlecrop, nopretrain_multicrop, pretrain_singlecrop, pretrain_multicrop), each with two columns: LayerCAM and ScoreCAM. Total rows: "

/-- Pipeline 2's head from the row count to the first header row's
section cells. -/
def HEAD2_B : String :=
  "</div>\n  <table>\n    <thead>\n      <tr>\n        <th>Source (Chinese)</th>\n        "

/-- Between the two header rows. -/
def HEAD2_C : String :=
  "\n      </tr>\n      <tr>\n        <th></th>\n        "

/-- From the second header row's cells to `<tbody>`. -/
def HEAD2_D : String :=
  "\n      </tr>\n    </thead>\n    <tbody>\n"

def TAIL2 : String := "\n    </tbody>\n  </table>\n</body>\n</html>\n"

/-- The first header row's section-label cells: read from the FIRST
row's section list, the empty string when there is no row
(`... if rows else ''` in the source). -/
def sectionLabelCells (rows : List Row2) : String :=
  match rows with
  | [] => ""
  | r :: _ =>
    String.join (r.sections.map (fun t =>
      "<th colspan=\"2\">" ++ htmlEscape t.1 ++ "</th>"))

/-- The second header row's `LayerCAM`/`ScoreCAM` cells, one pair per
section of the first row, empty when there is no row. -/
def subLabelCells (rows : List Row2) : String :=
  match rows with
  | [] => ""
  | r :: _ =>
    String.join (r.sections.map (fun _ => "<th>LayerCAM</th><th>ScoreCAM</th>"))

/-- The number of cells of the second header row: the blank corner cell
plus the LayerCAM and ScoreCAM cells of each section of the first row. -/
def headerCols2 (rows : List Row2) : Nat :=
  match rows with
  | [] => 1
  | r :: _ => 1 + 2 * r.sections.length

/-- The two body cells one section contributes in pipeline 2. -/
def sectionCellPair (baseEsc : String) (t : String × Option String × Option String) :
    List String :=
  [(match t.2.1 with
    | some p =>
      "<td><img class=\"thumb\" src=\"" ++ htmlEscape p ++ "\" alt=\"" ++
        baseEsc ++ " " ++ htmlEscape t.1 ++ " LayerCAM\"></td>"
    | none => "<td></td>"),
   (match t.2.2 with
    | some p =>
      "<td><img class=\"thumb\" src=\"" ++ htmlEscape p ++ "\" alt=\"" ++
        baseEsc ++ " " ++ htmlEscape t.1 ++ " ScoreCAM\"></td>"
    | none => "<td></td>")]

/-- The `cells` list pipeline 2's renderer builds for one row. -/
def renderCells2 (row : Row2) : List String :=
  srcCell (htmlEscape row.base) row.chinese ::
    row.sections.flatMap (sectionCellPair (htmlEscape row.base))

def rowHtml2 (row : Row2) : String :=
  "<tr>\n" ++ String.intercalate "\n" (renderCells2 row) ++ "\n</tr>"

/-- `render_html` (pipeline 2). -/
def render_html2 (rows : List Row2) : String :=
  HEAD2_A ++ toString rows.length ++ HEAD2_B ++ sectionLabelCells rows ++
  HEAD2_C ++ subLabelCells rows ++ HEAD2_D ++
  String.intercalate "\n" (rows.map rowHtml2) ++ TAIL2

/-- One full run of pipeline 1: the document `main` writes, as a
function of the file-system state. -/
def generate1 (fs : FS1) : String := render_html (build_rows fs)

/-- One full run of pipeline 2. -/
def generate2 (fs : FS2) : String := render_html2 (build_rows2 fs)

/-- Two optional directory listings that hold the same entries, possibly
enumerated in a different order (OS `iterdir` order is unspecified). -/
def dirListingPerm : Option (List DirEntry) → Option (List DirEntry) → Prop
  | none, none => True
  | some a, some b => a.Perm b
  | _, _ => False

/-- Two optional method trees with the same subdirectories in the same
association order, each subdirectory's files possibly reordered. -/
def treeSim : Option (List (String × List String)) →
    Option (List (String × List String)) → Prop
  | none, none => True
  | some a, some b => List.Forall₂ (fun p q => p.1 = q.1 ∧ p.2.Perm q.2) a b
  | _, _ => False

/-- Two optional file lists that are permutations of each other (or both
absent). -/
def optFilesPerm : Option (List String) → Option (List String) → Prop
  | none, none => True
  | some a, some b => a.Perm b
  | _, _ => False

/-- Pipeline-1 states equal up to enumeration order of every directory. -/
def fs1Sim (fs fs' : FS1) : Prop :=
  dirListingPerm fs.chinese fs'.chinese ∧ treeSim fs.layer fs'.layer ∧
    treeSim fs.hires fs'.hires ∧ treeSim fs.score fs'.score

/-- Pipeline-2 states equal up to enumeration order of every directory. -/
def fs2Sim (fs fs' : FS2) : Prop :=
  dirListingPerm fs.chinese fs'.chinese ∧
    List.Forall₂ (fun p q => p.1 = q.1 ∧ p.2.Perm q.2) fs.vdirs fs'.vdirs

/-- A POSIX-absolute path: one that starts with `'/'`. -/
def startsWithSlash (p : String) : Bool :=
  match p.data with
  | c :: _ => c = '/'
  | [] => false

/-- The path `p` names, relative to the project root, a regular file of
the source directory listing `d`. -/
def srcFileAt (d : Option (List DirEntry)) (p : String) : Prop :=
  ∃ es e, d = some es ∧ e ∈ es ∧ e.isFile = true ∧ p = "Chinese/" ++ e.name

/-- The path `p` names, relative to the project root, a file inside one
BaseKey subdirectory of the method tree `t` whose top directory is
named `top`. -/
def inTree (t : Option (List (String × List String))) (top p : String) : Prop :=
  ∃ base files f, lookupDir t base = some files ∧ f ∈ files ∧
    p = top ++ "/" ++ base ++ "/" ++ f

/-- The path `p` names, relative to the project root, a file inside the
pipeline-2 variant directory for `(sec, method, base)`. -/
def inVTree (fs : FS2) (sec method base p : String) : Prop :=
  ∃ files f, lookupVDir fs (sec, method, base) = some files ∧ f ∈ files ∧
    p = "12.17_ResNet50/" ++ sec ++ "/" ++ method ++ "/" ++ base ++ "/" ++ f

end PatternViz

namespace PatternViz

example : list_images (some [⟨"b.png", true⟩, ⟨"a.PNG", true⟩, ⟨"._a.png", true⟩,
    ⟨"d.txt", true⟩, ⟨"c.png", false⟩]) = ["a.PNG", "b.png"] := by decide

example : pySuffix "x.tar.gz" = ".gz" := by decide
example : pySuffix "._foo" = "" := by decide
example : pySuffix "foo." = "" := by decide
example : pyStem "Chinese_B_0044.png" = "Chinese_B_0044" := by decide

example : pick_method_images "layercam/A" (some ["A_layercam_gb.png"]) "A" "layercam" =
    [none, none, some "layercam/A/A_layercam_gb.png"] := by decide

example : pick_single_image "d" (some ["b_m_gb.webp", "b_m_cam_gb.jpg"]) "b" "m" =
    some "d/b_m_cam_gb.jpg" := by decide

example : pick_single_image "d" (some ["b_m_cam.PNG"]) "b" "m" = none := by decide

example :
    build_rows { chinese := some [⟨"A_0001.png", true⟩],
                 layer := some [("A_0001", ["A_0001_layercam_cam.jpg"])],
                 hires := none, score := some [] } =
    [{ base := "A_0001", chinese := "Chinese/A_0001.png",
       layercam3 := [some "layercam/A_0001/A_0001_layercam_cam.jpg", none, none],
       hirescam3 := [none, none, none],
       scorecam3 := [none, none, none] }] := by decide

example : htmlEscape "a<b&c" = "a&lt;b&amp;c" := by decide

example : (renderCells1 { base := "B", chinese := "Chinese/B.png",
                          layercam3 := [none, none, none],
                          hirescam3 := [none, none, none],
                          scorecam3 := [none, none, none] }).length = 10 := by decide

example : sectionLabelCells [] = "" := by decide

/-! ## Helper lemmas -/

theorem find?_map_eq_foldr {α β : Type} (p : α → Bool) (g : α → β) :
    ∀ l : List α,
      (l.find? p).map g = l.foldr (fun c acc => if p c then some (g c) else acc) none
  | [] => rfl
  | a :: l => by
    cases h : p a <;>
      simp [List.find?, h, find?_map_eq_foldr p g l]

theorem find?_cons_pos {α : Type} (p : α → Bool) (a : α) (l : List α) (h : p a = true) :
    (a :: l).find? p = some a := List.find?_cons_of_pos l h

theorem find?_cons_neg {α : Type} (p : α → Bool) (a : α) (l : List α) (h : p a = false) :
    (a :: l).find? p = l.find? p := List.find?_cons_of_neg l (by simp [h])

theorem pickRoot_eq_ifs (dirRel root : String) (files : List String) :
    pickRoot dirRel files root =
      (if files.contains (root ++ ".png") then some (dirRel ++ "/" ++ (root ++ ".png"))
       else if files.contains (root ++ ".jpg") then some (dirRel ++ "/" ++ (root ++ ".jpg"))
       else if files.contains (root ++ ".jpeg") then some (dirRel ++ "/" ++ (root ++ ".jpeg"))
       else if files.contains (root ++ ".webp") then some (dirRel ++ "/" ++ (root ++ ".webp"))
       else none) := by
  unfold pickRoot EXT_ORDER
  cases h1 : files.contains (root ++ ".png")
  · rw [find?_cons_neg (fun ext => files.contains (root ++ ext)) ".png" _ h1]
    cases h2 : files.contains (root ++ ".jpg")
    · rw [find?_cons_neg (fun ext => files.contains (root ++ ext)) ".jpg" _ h2]
      cases h3 : files.contains (root ++ ".jpeg")
      · rw [find?_cons_neg (fun ext => files.contains (root ++ ext)) ".jpeg" _ h3]
        cases h4 : files.contains (root ++ ".webp")
        · rw [find?_cons_neg (fun ext => files.contains (root ++ ext)) ".webp" _ h4]
          rfl
        · rw [find?_cons_pos (fun ext => files.contains (root ++ ext)) ".webp" _ h4]
          rfl
      · rw [find?_cons_pos (fun ext => files.contains (root ++ ext)) ".jpeg" _ h3]
        rfl
    · rw [find?_cons_pos (fun ext => files.contains (root ++ ext)) ".jpg" _ h2]
      rfl
  · rw [find?_cons_pos (fun ext => files.contains (root ++ ext)) ".png" _ h1]
    rfl

theorem find?_append_of_some {α : Type} (p : α → Bool) (a : α) :
    ∀ l₁ l₂ : List α, l₁.find? p = some a → (l₁ ++ l₂).find? p = some a
  | [], _, h => by simp [List.find?] at h
  | b :: l₁, l₂, h => by
    cases hb : p b
    · rw [find?_cons_neg p b l₁ hb] at h
      rw [List.cons_append, find?_cons_neg p b (l₁ ++ l₂) hb]
      exact find?_append_of_some p a l₁ l₂ h
    · rw [find?_cons_pos p b l₁ hb] at h
      rw [List.cons_append, find?_cons_pos p b (l₁ ++ l₂) hb]
      exact h

theorem find?_map_of_some {α β : Type} (p : β → Bool) (f : α → β) (a : α) :
    ∀ l : List α, l.find? (fun x => p (f x)) = some a → (l.map f).find? p = some (f a)
  | [], h => by simp [List.find?] at h
  | b :: l, h => by
    cases hb : p (f b)
    · rw [find?_cons_neg (fun x => p (f x)) b l hb] at h
      rw [List.map_cons, find?_cons_neg p (f b) (l.map f) hb]
      exact find?_map_of_some p f a l h
    · rw [find?_cons_pos (fun x => p (f x)) b l hb] at h
      rw [List.map_cons, find?_cons_pos p (f b) (l.map f) hb]
      simp at h
      rw [h]

theorem pick_single_eq_foldr (dirRel base method : String) (files : List String) :
    pick_single_image dirRel (some files) base method =
      (candNames base method).foldr
        (fun c acc => if files.contains c then some (dirRel ++ "/" ++ c) else acc)
        none := by
  unfold pick_single_image
  exact find?_map_eq_foldr _ _ _

theorem mem_list_images (entries : List DirEntry) (n : String) :
    n ∈ list_images (some entries) ↔
      ∃ e ∈ entries, e.name = n ∧ e.isFile = true ∧
        ALLOWED_EXTS.contains (strLower (pySuffix n)) = true ∧
        startsWithDotUnderscore n = false := by
  unfold list_images
  rw [(List.perm_insertionSort _ _).mem_iff, List.mem_map]
  constructor
  · rintro ⟨e, he, rfl⟩
    rw [List.mem_filter] at he
    obtain ⟨he, hk⟩ := he
    unfold keepEntry at hk
    simp only [Bool.and_eq_true, Bool.not_eq_true'] at hk
    exact ⟨e, he, rfl, hk.1.1, hk.1.2, hk.2⟩
  · rintro ⟨e, he, rfl, hf, hext, hdot⟩
    refine ⟨e, List.mem_filter.2 ⟨he, ?_⟩, rfl⟩
    unfold keepEntry
    simp only [Bool.and_eq_true, Bool.not_eq_true']
    exact ⟨⟨hf, hext⟩, hdot⟩

/-! ## Claim theorems -/

/-- C1: `list_images` returns the lexicographically sorted list of the
files directly inside the directory whose extension, lowercased, is in
the allowed set and whose name does not start with `"._"`; a directory
that does not exist yields `[]` rather than an error. -/
theorem list_images_correct :
    (list_images none = []) ∧
    (∀ entries : List DirEntry,
      List.Sorted strLeP (list_images (some entries)) ∧
      (list_images (some entries)).Perm
        ((entries.filter keepEntry).map DirEntry.name) ∧
      (∀ n : String, n ∈ list_images (some entries) ↔
        ∃ e ∈ entries, e.name = n ∧ e.isFile = true ∧
          ALLOWED_EXTS.contains (strLower (pySuffix n)) = true ∧
          startsWithDotUnderscore n = false)) := by
  refine ⟨rfl, fun entries => ⟨?_, ?_, mem_list_images entries⟩⟩
  · exact List.sorted_insertionSort strLeP _
  · exact List.perm_insertionSort strLeP _

/-- C2: for an existing directory, `pick_method_images` returns exactly
three slots, one per template in the fixed order `cam`, `cam_gb`, `gb`,
each resolved independently to the first extension in the order `png`,
`jpg`, `jpeg`, `webp` whose file exists, `none` when none of the four
exists; with only third-template files present the third slot is
populated and the first two are absent. -/
theorem pick_method_images_correct :
    (∀ dirRel base method : String, ∀ files : List String,
      pick_method_images dirRel (some files) base method =
        [pickRoot dirRel files (base ++ "_" ++ method ++ "_cam"),
         pickRoot dirRel files (base ++ "_" ++ method ++ "_cam_gb"),
         pickRoot dirRel files (base ++ "_" ++ method ++ "_gb")]) ∧
    (∀ dirRel root : String, ∀ files : List String,
      pickRoot dirRel files root =
        (if files.contains (root ++ ".png") then some (dirRel ++ "/" ++ (root ++ ".png"))
         else if files.contains (root ++ ".jpg") then some (dirRel ++ "/" ++ (root ++ ".jpg"))
         else if files.contains (root ++ ".jpeg") then some (dirRel ++ "/" ++ (root ++ ".jpeg"))
         else if files.contains (root ++ ".webp") then some (dirRel ++ "/" ++ (root ++ ".webp"))
         else none)) ∧
    (pick_method_images "layercam/A" (some ["A_layercam_gb.png"]) "A" "layercam" =
      [none, none, some "layercam/A/A_layercam_gb.png"]) := by
  refine ⟨fun dirRel base method files => rfl,
          fun dirRel root files => pickRoot_eq_ifs dirRel root files,
          by decide⟩

/-- C4: `pick_single_image` returns `none` for a missing directory, and
otherwise scans the twelve candidates — three templates in priority
order `cam`, `cam_gb`, `gb`, each with extensions in order `png`, `jpg`,
`jpeg`, `webp` — stopping at the first existing one (the right-nested
conditional); when any first-template file exists the result is a
first-template file, and when no candidate exists it is `none`. -/
theorem pick_single_image_correct :
    (∀ dirRel base method : String, pick_single_image dirRel none base method = none) ∧
    (∀ dirRel base method : String, ∀ files : List String,
      pick_single_image dirRel (some files) base method =
        (candNames base method).foldr
          (fun c acc => if files.contains c then some (dirRel ++ "/" ++ c) else acc)
          none) ∧
    (∀ dirRel base method : String, ∀ files : List String, ∀ p : String,
      pickRoot dirRel files (base ++ "_" ++ method ++ "_cam") = some p →
        pick_single_image dirRel (some files) base method = some p) ∧
    (∀ dirRel base method : String, ∀ files : List String,
      (∀ c ∈ candNames base method, files.contains c = false) →
        pick_single_image dirRel (some files) base method = none) := by
  refine ⟨fun _ _ _ => rfl, fun dirRel base method files =>
            pick_single_eq_foldr dirRel base method files, ?_, ?_⟩
  · intro dirRel base method files p hp
    unfold pickRoot at hp
    obtain ⟨ext, hfind, rfl⟩ := Option.map_eq_some'.1 hp
    show Option.map (fun c => dirRel ++ "/" ++ c)
        ((candNames base method).find? (fun c => files.contains c)) = _
    have hA : candNames base method =
        EXT_ORDER.map (fun e => base ++ "_" ++ method ++ "_cam" ++ e) ++
          (EXT_ORDER.map (fun e => base ++ "_" ++ method ++ "_cam_gb" ++ e) ++
            (EXT_ORDER.map (fun e => base ++ "_" ++ method ++ "_gb" ++ e) ++ [])) := by
      simp [candNames, roots3]
    rw [hA, find?_append_of_some _ _ _ _ (find?_map_of_some _ _ _ _ hfind)]
    rfl
  · intro dirRel base method files hnone
    show Option.map (fun c => dirRel ++ "/" ++ c)
        ((candNames base method).find? (fun c => files.contains c)) = none
    rw [List.find?_eq_none.2
      (fun c hc => by simp only [hnone c hc]; exact Bool.false_ne_true)]
    rfl

theorem pick_method_images_length (dirRel : String) (d : Option (List String))
    (base method : String) : (pick_method_images dirRel d base method).length = 3 := by
  cases d <;> rfl

theorem methodSlots_length (t : Option (List (String × List String)))
    (topRel base method : String) : (methodSlots t topRel base method).length = 3 := by
  unfold methodSlots
  split
  · exact pick_method_images_length _ _ _ _
  · rfl

/-- C3: both row builders emit exactly one row per enumerated source
image — never dropping a row — with the source reference filled in; a
method (or section) whose candidate directory does not exist
contributes only absent slots, and no error is raised. -/
theorem build_rows_one_per_image :
    (∀ fs : FS1,
      (build_rows fs).length = (list_images fs.chinese).length ∧
      List.Forall₂
        (fun nm r =>
          r.base = pyStem nm ∧ r.chinese = "Chinese/" ++ nm ∧
          ((list_dirs fs.layer).contains r.base = false →
            r.layercam3 = [none, none, none]) ∧
          ((list_dirs fs.hires).contains r.base = false →
            r.hirescam3 = [none, none, none]) ∧
          ((list_dirs fs.score).contains r.base = false →
            r.scorecam3 = [none, none, none]))
        (list_images fs.chinese) (build_rows fs)) ∧
    (∀ fs : FS2,
      (build_rows2 fs).length = (list_images fs.chinese).length ∧
      List.Forall₂
        (fun nm r =>
          r.base = pyStem nm ∧ r.chinese = "Chinese/" ++ nm ∧
          ∀ t ∈ r.sections,
            (lookupVDir fs (t.1, "layercam", r.base) = none → t.2.1 = none) ∧
            (lookupVDir fs (t.1, "scorecam", r.base) = none → t.2.2 = none))
        (list_images fs.chinese) (build_rows2 fs)) ∧
    (∀ dirRel base method : String, pick_single_image dirRel none base method = none) := by
  refine ⟨fun fs => ⟨by simp [build_rows], ?_⟩,
          fun fs => ⟨by simp [build_rows2], ?_⟩,
          fun _ _ _ => rfl⟩
  · rw [build_rows, List.forall₂_map_right_iff, List.forall₂_same]
    intro nm _
    refine ⟨rfl, rfl, fun hcf => ?_, fun hcf => ?_, fun hcf => ?_⟩
    · have h : (list_dirs fs.layer).contains (pyStem nm) = false := hcf
      show methodSlots fs.layer "layercam" (pyStem nm) "layercam" = [none, none, none]
      unfold methodSlots
      rw [h]
      rfl
    · have h : (list_dirs fs.hires).contains (pyStem nm) = false := hcf
      show methodSlots fs.hires "hirescam" (pyStem nm) "hirescam" = [none, none, none]
      unfold methodSlots
      rw [h]
      rfl
    · have h : (list_dirs fs.score).contains (pyStem nm) = false := hcf
      show methodSlots fs.score "scorecam" (pyStem nm) "scorecam" = [none, none, none]
      unfold methodSlots
      rw [h]
      rfl
  · rw [build_rows2, List.forall₂_map_right_iff, List.forall₂_same]
    intro nm _
    refine ⟨rfl, rfl, ?_⟩
    intro t ht
    simp only [List.mem_map] at ht
    obtain ⟨s, _, rfl⟩ := ht
    constructor
    · intro hl
      have h : lookupVDir fs (s, "layercam", pyStem nm) = none := hl
      show pick_single_image ("12.17_ResNet50/" ++ s ++ "/layercam/" ++ pyStem nm)
        (lookupVDir fs (s, "layercam", pyStem nm)) (pyStem nm) "layercam" = none
      rw [h]
      rfl
    · intro hs
      have h : lookupVDir fs (s, "scorecam", pyStem nm) = none := hs
      show pick_single_image ("12.17_ResNet50/" ++ s ++ "/scorecam/" ++ pyStem nm)
        (lookupVDir fs (s, "scorecam", pyStem nm)) (pyStem nm) "scorecam" = none
      rw [h]
      rfl

/-- C5: every rendered body row has as many cells as the header has
columns, however many slots resolved — 10 in pipeline 1 and 9 in
pipeline 2 — and an absent slot renders as a structurally present empty
cell, never as a missing cell. -/
theorem render_cell_counts :
    (headers1.length = 10) ∧
    (∀ fs : FS1, ∀ row ∈ build_rows fs, (renderCells1 row).length = headers1.length) ∧
    (∀ fs : FS2, ∀ row ∈ build_rows2 fs, (renderCells2 row).length = 9) ∧
    (∀ fs : FS2, build_rows2 fs ≠ [] → headerCols2 (build_rows2 fs) = 9) ∧
    (∀ baseEsc label : String,
      imgCell1 baseEsc label none = "<td><div class=\"row-title\"></div></td>") ∧
    (∀ baseEsc s : String,
      sectionCellPair baseEsc (s, none, none) = ["<td></td>", "<td></td>"]) := by
  refine ⟨rfl, ?_, ?_, ?_, fun _ _ => rfl, fun _ _ => rfl⟩
  · intro fs row hrow
    rw [build_rows, List.mem_map] at hrow
    obtain ⟨nm, _, rfl⟩ := hrow
    simp [renderCells1, methodSlots_length, headers1]
  · intro fs row hrow
    rw [build_rows2, List.mem_map] at hrow
    obtain ⟨nm, _, rfl⟩ := hrow
    simp [renderCells2, SECTIONS, sectionCellPair]
  · intro fs hne
    cases himgs : list_images fs.chinese with
    | nil => exact absurd (by simp [build_rows2, himgs]) hne
    | cons nm rest => simp [build_rows2, himgs, headerCols2, SECTIONS]

theorem escList_no_angle :
    ∀ cs : List Char, (escList cs).filter (fun c => c == '<' || c == '>') = []
  | [] => rfl
  | c :: cs => by
    rw [escList, List.filter_append, escList_no_angle cs, List.append_nil]
    by_cases h1 : c = '&'
    · rw [h1]; decide
    · by_cases h2 : c = '<'
      · rw [h2]; decide
      · by_cases h3 : c = '>'
        · rw [h3]; decide
        · by_cases h4 : c = '"'
          · rw [h4]; decide
          · by_cases h5 : c = Char.ofNat 39
            · rw [h5]; decide
            · rw [escChar, if_neg h1, if_neg h2, if_neg h3, if_neg h4, if_neg h5]
              show List.filter _ [c] = []
              rw [List.filter_cons_of_neg]
              · rfl
              · simp [h2, h3]

set_option maxRecDepth 8000 in
/-- C6: user-derived strings pass through `htmlEscape` before being
embedded, and escaping removes every raw markup delimiter: an escaped
string never contains `<` or `>`; a BaseKey such as `a<b&c` reaches
both pipelines' rendered rows only in its escaped form `a&lt;b&amp;c`,
and the raw text `a<b` occurs nowhere in the row markup. -/
theorem user_strings_escaped :
    (∀ s : String,
      (htmlEscape s).data.filter (fun c => c == '<' || c == '>') = []) ∧
    (htmlEscape "a<b&c" = "a&lt;b&amp;c") ∧
    ("a&lt;b&amp;c".data <:+:
      (rowHtml1 { base := "a<b&c", chinese := "Chinese/a<b&c.png",
                  layercam3 := [some "layercam/x/y.png", none, none],
                  hirescam3 := [none, none, none],
                  scorecam3 := [none, none, none] }).data) ∧
    (¬ ("a<b".data <:+:
      (rowHtml1 { base := "a<b&c", chinese := "Chinese/a<b&c.png",
                  layercam3 := [some "layercam/x/y.png", none, none],
                  hirescam3 := [none, none, none],
                  scorecam3 := [none, none, none] }).data)) ∧
    ("a&lt;b&amp;c".data <:+:
      (rowHtml2 { base := "a<b&c", chinese := "Chinese/a<b&c.png",
                  sections := [("nopretrain_singlecrop", none, none)] }).data) ∧
    (¬ ("a<b".data <:+:
      (rowHtml2 { base := "a<b&c", chinese := "Chinese/a<b&c.png",
                  sections := [("nopretrain_singlecrop", none, none)] }).data)) := by
  refine ⟨fun s => escList_no_angle s.data, by decide, by decide, by decide,
    by decide, by decide⟩

theorem contains_eq_of_perm {l l' : List String} (h : l.Perm l') (a : String) :
    l.contains a = l'.contains a := by
  by_cases hm : a ∈ l
  · have h1 : l.contains a = true := List.elem_iff.2 hm
    have h2 : l'.contains a = true := List.elem_iff.2 (h.mem_iff.1 hm)
    rw [h1, h2]
  · have hm' : a ∉ l' := fun hx => hm (h.mem_iff.2 hx)
    have h1 : l.contains a = false := by
      cases hc : l.contains a
      · rfl
      · exact absurd (List.elem_iff.1 hc) hm
    have h2 : l'.contains a = false := by
      cases hc : l'.contains a
      · rfl
      · exact absurd (List.elem_iff.1 hc) hm'
    rw [h1, h2]

theorem find?_congr_pred {α : Type} (p q : α → Bool) (hpq : ∀ x, p x = q x) :
    ∀ l : List α, l.find? p = l.find? q
  | [] => rfl
  | c :: l => by
    cases hc : p c
    · rw [find?_cons_neg p c l hc, find?_cons_neg q c l (by rw [← hpq c]; exact hc),
        find?_congr_pred p q hpq l]
    · rw [find?_cons_pos p c l hc, find?_cons_pos q c l (by rw [← hpq c]; exact hc)]

theorem pickRoot_perm_congr {files files' : List String} (h : files.Perm files')
    (dirRel root : String) : pickRoot dirRel files root = pickRoot dirRel files' root := by
  unfold pickRoot
  rw [find?_congr_pred (fun ext => files.contains (root ++ ext))
    (fun ext => files'.contains (root ++ ext))
    (fun ext => contains_eq_of_perm h (root ++ ext)) EXT_ORDER]

theorem pick_method_images_perm_congr {d d' : Option (List String)}
    (h : optFilesPerm d d') (dirRel base method : String) :
    pick_method_images dirRel d base method = pick_method_images dirRel d' base method := by
  cases d with
  | none => cases d' with
    | none => rfl
    | some b => exact False.elim h
  | some a => cases d' with
    | none => exact False.elim h
    | some b =>
      unfold pick_method_images
      exact List.map_congr_left fun root _ => pickRoot_perm_congr h dirRel root

theorem pick_single_image_perm_congr {d d' : Option (List String)}
    (h : optFilesPerm d d') (dirRel base method : String) :
    pick_single_image dirRel d base method = pick_single_image dirRel d' base method := by
  cases d with
  | none => cases d' with
    | none => rfl
    | some b => exact False.elim h
  | some a => cases d' with
    | none => exact False.elim h
    | some b =>
      show Option.map (fun c => dirRel ++ "/" ++ c)
          ((candNames base method).find? (fun c => a.contains c)) =
        Option.map (fun c => dirRel ++ "/" ++ c)
          ((candNames base method).find? (fun c => b.contains c))
      rw [find?_congr_pred (fun c => a.contains c) (fun c => b.contains c)
        (fun c => contains_eq_of_perm h c) (candNames base method)]

theorem list_images_perm_congr {d d' : Option (List DirEntry)}
    (h : dirListingPerm d d') : list_images d = list_images d' := by
  cases d with
  | none => cases d' with
    | none => rfl
    | some b => exact False.elim h
  | some a => cases d' with
    | none => exact False.elim h
    | some b =>
      have hab : a.Perm b := h
      have hp : ((a.filter keepEntry).map DirEntry.name).Perm
          ((b.filter keepEntry).map DirEntry.name) :=
        (hab.filter keepEntry).map DirEntry.name
      unfold list_images
      refine @List.eq_of_perm_of_sorted _ strLeP inferInstance _ _ ?_ ?_ ?_
      · exact ((List.perm_insertionSort strLeP _).trans hp).trans
          (List.perm_insertionSort strLeP _).symm
      · exact List.sorted_insertionSort strLeP _
      · exact List.sorted_insertionSort strLeP _

theorem forall₂_keys_eq {a b : List (String × List String)}
    (h : List.Forall₂ (fun p q => p.1 = q.1 ∧ p.2.Perm q.2) a b) :
    a.map Prod.fst = b.map Prod.fst := by
  induction h with
  | nil => rfl
  | cons hpq _ ih => simp [List.map_cons, hpq.1, ih]

theorem list_dirs_sim_congr {t t' : Option (List (String × List String))}
    (h : treeSim t t') : list_dirs t = list_dirs t' := by
  cases t with
  | none => cases t' with
    | none => rfl
    | some b => exact False.elim h
  | some a => cases t' with
    | none => exact False.elim h
    | some b => exact forall₂_keys_eq h

theorem find?_assoc_sim {κ : Type} [BEq κ] (k : κ) :
    ∀ {a b : List (κ × List String)},
      List.Forall₂ (fun p q => p.1 = q.1 ∧ p.2.Perm q.2) a b →
      optFilesPerm ((a.find? (fun p => p.1 == k)).map Prod.snd)
        ((b.find? (fun p => p.1 == k)).map Prod.snd) := by
  intro a b h
  induction h with
  | nil => exact trivial
  | cons hpq htail ih =>
    rename_i p q a' b'
    cases hk : (p.1 == k)
    · rw [find?_cons_neg (fun r => r.1 == k) p a' hk,
        find?_cons_neg (fun r => r.1 == k) q b'
          (by show (q.1 == k) = false; rw [← hpq.1]; exact hk)]
      exact ih
    · rw [find?_cons_pos (fun r => r.1 == k) p a' hk,
        find?_cons_pos (fun r => r.1 == k) q b'
          (by show (q.1 == k) = true; rw [← hpq.1]; exact hk)]
      exact hpq.2

theorem lookupDir_sim {t t' : Option (List (String × List String))}
    (h : treeSim t t') (base : String) :
    optFilesPerm (lookupDir t base) (lookupDir t' base) := by
  cases t with
  | none => cases t' with
    | none => exact trivial
    | some b => exact False.elim h
  | some a => cases t' with
    | none => exact False.elim h
    | some b => exact find?_assoc_sim base h

theorem methodSlots_sim_congr {t t' : Option (List (String × List String))}
    (h : treeSim t t') (topRel base method : String) :
    methodSlots t topRel base method = methodSlots t' topRel base method := by
  unfold methodSlots
  rw [list_dirs_sim_congr h]
  split
  · exact pick_method_images_perm_congr (lookupDir_sim h base) _ _ _
  · rfl

theorem build_rows_sim_congr {fs fs' : FS1} (h : fs1Sim fs fs') :
    build_rows fs = build_rows fs' := by
  unfold build_rows
  rw [list_images_perm_congr h.1]
  refine List.map_congr_left fun nm _ => ?_
  rw [methodSlots_sim_congr h.2.1, methodSlots_sim_congr h.2.2.1,
    methodSlots_sim_congr h.2.2.2]

theorem lookupVDir_sim {fs fs' : FS2}
    (h : List.Forall₂ (fun p q => p.1 = q.1 ∧ p.2.Perm q.2) fs.vdirs fs'.vdirs)
    (k : String × String × String) :
    optFilesPerm (lookupVDir fs k) (lookupVDir fs' k) :=
  find?_assoc_sim k h

theorem build_rows2_sim_congr {fs fs' : FS2} (h : fs2Sim fs fs') :
    build_rows2 fs = build_rows2 fs' := by
  unfold build_rows2
  rw [list_images_perm_congr h.1]
  refine List.map_congr_left fun nm _ => ?_
  have hsec : ∀ s : String,
      (s,
       pick_single_image ("12.17_ResNet50/" ++ s ++ "/layercam/" ++ pyStem nm)
         (lookupVDir fs (s, "layercam", pyStem nm)) (pyStem nm) "layercam",
       pick_single_image ("12.17_ResNet50/" ++ s ++ "/scorecam/" ++ pyStem nm)
         (lookupVDir fs (s, "scorecam", pyStem nm)) (pyStem nm) "scorecam") =
      (s,
       pick_single_image ("12.17_ResNet50/" ++ s ++ "/layercam/" ++ pyStem nm)
         (lookupVDir fs' (s, "layercam", pyStem nm)) (pyStem nm) "layercam",
       pick_single_image ("12.17_ResNet50/" ++ s ++ "/scorecam/" ++ pyStem nm)
         (lookupVDir fs' (s, "scorecam", pyStem nm)) (pyStem nm) "scorecam") := by
    intro s
    rw [pick_single_image_perm_congr (lookupVDir_sim h.2 (s, "layercam", pyStem nm)),
      pick_single_image_perm_congr (lookupVDir_sim h.2 (s, "scorecam", pyStem nm))]
  simp only [hsec]

/-- C7: each generator's output document is a deterministic function of
the file-system state alone — two runs on the same state are
byte-identical, and the output is even invariant under reordering each
directory's enumeration (the only OS-dependent input), since the source
listing is sorted and lookups are membership tests. -/
theorem generate_deterministic :
    (∀ fs : FS1, generate1 fs = generate1 fs) ∧
    (∀ fs : FS2, generate2 fs = generate2 fs) ∧
    (∀ fs fs' : FS1, fs1Sim fs fs' → generate1 fs = generate1 fs') ∧
    (∀ fs fs' : FS2, fs2Sim fs fs' → generate2 fs = generate2 fs') :=
  ⟨fun _ => rfl, fun _ => rfl,
   fun _ _ h => congrArg render_html (build_rows_sim_congr h),
   fun _ _ h => congrArg render_html2 (build_rows2_sim_congr h)⟩

theorem startsWithSlash_append (s t : String) (h : startsWithSlash s = false)
    (hne : s.data ≠ []) :
    startsWithSlash (s ++ t) = false ∧ (s ++ t).data ≠ [] := by
  cases hd : s.data with
  | nil => exact absurd hd hne
  | cons c cs =>
    have hdt : (s ++ t).data = c :: (cs ++ t.data) := by
      rw [String.data_append, hd, List.cons_append]
    constructor
    · unfold startsWithSlash at h ⊢
      rw [hd] at h
      rw [hdt]
      exact h
    · rw [hdt]
      exact List.cons_ne_nil c (cs ++ t.data)

theorem startsWithSlash_dirAppend (A f : String) (h : startsWithSlash A = false)
    (hne : A.data ≠ []) : startsWithSlash (A ++ "/" ++ f) = false := by
  have h1 := startsWithSlash_append A "/" h hne
  exact (startsWithSlash_append (A ++ "/") f h1.1 h1.2).1

theorem lookupDir_some_of_contains (t : Option (List (String × List String)))
    (base : String) (h : (list_dirs t).contains base = true) :
    ∃ files, lookupDir t base = some files := by
  cases t with
  | none => exact absurd (List.elem_iff.1 h) (List.not_mem_nil base)
  | some l =>
    have hm : base ∈ l.map Prod.fst := List.elem_iff.1 h
    obtain ⟨q, hp, hfst⟩ := List.mem_map.1 hm
    have hsome : (l.find? (fun r => r.1 == base)).isSome := by
      rw [List.find?_isSome]
      exact ⟨q, hp, by rw [hfst]; exact beq_self_eq_true base⟩
    obtain ⟨r, hr⟩ := Option.isSome_iff_exists.1 hsome
    refine ⟨r.2, ?_⟩
    show Option.map Prod.snd (l.find? (fun p => p.1 == base)) = some r.2
    rw [hr]
    rfl

theorem methodSlots_some_spec {t : Option (List (String × List String))}
    {topRel base method p : String}
    (hp : some p ∈ methodSlots t topRel base method) :
    ∃ files f, lookupDir t base = some files ∧ f ∈ files ∧
      p = topRel ++ "/" ++ base ++ "/" ++ f := by
  unfold methodSlots at hp
  by_cases hc : (list_dirs t).contains base = true
  · rw [if_pos hc] at hp
    obtain ⟨files, hfl⟩ := lookupDir_some_of_contains t base hc
    rw [hfl] at hp
    unfold pick_method_images at hp
    rw [List.mem_map] at hp
    obtain ⟨root, _, hpr⟩ := hp
    unfold pickRoot at hpr
    obtain ⟨ext, hfind, hpe⟩ := Option.map_eq_some'.1 hpr
    have hcont' := List.find?_some hfind
    have hcont : files.contains (root ++ ext) = true := hcont'
    exact ⟨files, root ++ ext, hfl, List.elem_iff.1 hcont, by rw [← hpe]⟩
  · rw [if_neg hc] at hp
    simp at hp

theorem pick_single_some_spec {d : Option (List String)}
    {dirRel base method p : String}
    (hp : pick_single_image dirRel d base method = some p) :
    ∃ files f, d = some files ∧ f ∈ files ∧ p = dirRel ++ "/" ++ f := by
  cases d with
  | none => exact absurd hp (by simp [pick_single_image])
  | some files =>
    obtain ⟨c, hfind, hpe⟩ := Option.map_eq_some'.1 hp
    have hcont' := List.find?_some hfind
    have hcont : files.contains c = true := hcont'
    exact ⟨files, c, rfl, List.elem_iff.1 hcont, hpe.symm⟩

theorem slash_layercam_split (A b : String) :
    A ++ "/layercam/" ++ b = A ++ "/" ++ "layercam" ++ "/" ++ b := by
  apply String.ext
  simp only [String.data_append, List.append_assoc]
  congr 1

theorem slash_scorecam_split (A b : String) :
    A ++ "/scorecam/" ++ b = A ++ "/" ++ "scorecam" ++ "/" ++ b := by
  apply String.ext
  simp only [String.data_append, List.append_assoc]
  congr 1

/-- C8: every image reference a row carries is a path relative to the
output document's directory (the project root) — never an absolute
path starting with `/` — and each one points at a file present in the
modelled file-system state at resolution time. -/
theorem image_refs_relative_and_existing :
    (∀ fs : FS1, ∀ row ∈ build_rows fs,
      (startsWithSlash row.chinese = false ∧ srcFileAt fs.chinese row.chinese) ∧
      (∀ p : String, some p ∈ row.layercam3 →
        startsWithSlash p = false ∧ inTree fs.layer "layercam" p) ∧
      (∀ p : String, some p ∈ row.hirescam3 →
        startsWithSlash p = false ∧ inTree fs.hires "hirescam" p) ∧
      (∀ p : String, some p ∈ row.scorecam3 →
        startsWithSlash p = false ∧ inTree fs.score "scorecam" p)) ∧
    (∀ fs : FS2, ∀ row ∈ build_rows2 fs,
      (startsWithSlash row.chinese = false ∧ srcFileAt fs.chinese row.chinese) ∧
      (∀ t ∈ row.sections, ∀ p : String,
        (t.2.1 = some p →
          startsWithSlash p = false ∧ inVTree fs t.1 "layercam" row.base p) ∧
        (t.2.2 = some p →
          startsWithSlash p = false ∧ inVTree fs t.1 "scorecam" row.base p))) := by
  constructor
  · intro fs row hrow
    rw [build_rows, List.mem_map] at hrow
    obtain ⟨nm, hnm, rfl⟩ := hrow
    have hsrc : startsWithSlash ("Chinese/" ++ nm) = false :=
      (startsWithSlash_append "Chinese/" nm (by decide) (by decide)).1
    have hfile : srcFileAt fs.chinese ("Chinese/" ++ nm) := by
      cases hch : fs.chinese with
      | none => rw [hch] at hnm; exact absurd hnm (List.not_mem_nil nm)
      | some es =>
        rw [hch] at hnm
        obtain ⟨e, he, hename, hf, _, _⟩ := (mem_list_images es nm).1 hnm
        exact ⟨es, e, rfl, he, hf, by rw [hename]⟩
    refine ⟨⟨hsrc, hfile⟩, ?_, ?_, ?_⟩
    · intro p hp
      obtain ⟨files, f, hfl, hf, rfl⟩ := methodSlots_some_spec hp
      have h0 := startsWithSlash_append "layercam" "/" (by decide) (by decide)
      have h1 := startsWithSlash_append ("layercam" ++ "/") (pyStem nm) h0.1 h0.2
      exact ⟨startsWithSlash_dirAppend _ f h1.1 h1.2, pyStem nm, files, f, hfl, hf, rfl⟩
    · intro p hp
      obtain ⟨files, f, hfl, hf, rfl⟩ := methodSlots_some_spec hp
      have h0 := startsWithSlash_append "hirescam" "/" (by decide) (by decide)
      have h1 := startsWithSlash_append ("hirescam" ++ "/") (pyStem nm) h0.1 h0.2
      exact ⟨startsWithSlash_dirAppend _ f h1.1 h1.2, pyStem nm, files, f, hfl, hf, rfl⟩
    · intro p hp
      obtain ⟨files, f, hfl, hf, rfl⟩ := methodSlots_some_spec hp
      have h0 := startsWithSlash_append "scorecam" "/" (by decide) (by decide)
      have h1 := startsWithSlash_append ("scorecam" ++ "/") (pyStem nm) h0.1 h0.2
      exact ⟨startsWithSlash_dirAppend _ f h1.1 h1.2, pyStem nm, files, f, hfl, hf, rfl⟩
  · intro fs row hrow
    rw [build_rows2, List.mem_map] at hrow
    obtain ⟨nm, hnm, rfl⟩ := hrow
    have hsrc : startsWithSlash ("Chinese/" ++ nm) = false :=
      (startsWithSlash_append "Chinese/" nm (by decide) (by decide)).1
    have hfile : srcFileAt fs.chinese ("Chinese/" ++ nm) := by
      cases hch : fs.chinese with
      | none => rw [hch] at hnm; exact absurd hnm (List.not_mem_nil nm)
      | some es =>
        rw [hch] at hnm
        obtain ⟨e, he, hename, hf, _, _⟩ := (mem_list_images es nm).1 hnm
        exact ⟨es, e, rfl, he, hf, by rw [hename]⟩
    refine ⟨⟨hsrc, hfile⟩, ?_⟩
    intro t ht p
    simp only [List.mem_map] at ht
    obtain ⟨sec, _, rfl⟩ := ht
    constructor
    · intro hp
      obtain ⟨files, f, hfl, hf, rfl⟩ := pick_single_some_spec hp
      have h0 := startsWithSlash_append "12.17_ResNet50/" sec (by decide) (by decide)
      have h1 := startsWithSlash_append ("12.17_ResNet50/" ++ sec) "/layercam/" h0.1 h0.2
      have h2 := startsWithSlash_append ("12.17_ResNet50/" ++ sec ++ "/layercam/")
        (pyStem nm) h1.1 h1.2
      refine ⟨startsWithSlash_dirAppend _ f h2.1 h2.2, files, f, hfl, hf, ?_⟩
      show _ = "12.17_ResNet50/" ++ sec ++ "/" ++ "layercam" ++ "/" ++ pyStem nm ++ "/" ++ f
      rw [← slash_layercam_split ("12.17_ResNet50/" ++ sec) (pyStem nm)]
    · intro hp
      obtain ⟨files, f, hfl, hf, rfl⟩ := pick_single_some_spec hp
      have h0 := startsWithSlash_append "12.17_ResNet50/" sec (by decide) (by decide)
      have h1 := startsWithSlash_append ("12.17_ResNet50/" ++ sec) "/scorecam/" h0.1 h0.2
      have h2 := startsWithSlash_append ("12.17_ResNet50/" ++ sec ++ "/scorecam/")
        (pyStem nm) h1.1 h1.2
      refine ⟨startsWithSlash_dirAppend _ f h2.1 h2.2, files, f, hfl, hf, ?_⟩
      show _ = "12.17_ResNet50/" ++ sec ++ "/" ++ "scorecam" ++ "/" ++ pyStem nm ++ "/" ++ f
      rw [← slash_scorecam_split ("12.17_ResNet50/" ++ sec) (pyStem nm)]

/-- C9 counterexample: a variant file whose extension differs only in
letter case from an allowed spelling (`b_m_cam.PNG`) is NOT resolvable
by either pipeline's variant resolver — both return only absence — so
variant resolution is not case-insensitive as claimed. -/
theorem uppercase_ext_variant_unresolved :
    pick_single_image "d" (some ["b_m_cam.PNG"]) "b" "m" = none ∧
    pick_method_images "d" (some ["b_m_cam.PNG"]) "b" "m" = [none, none, none] := by
  exact ⟨by decide, by decide⟩

/-- C9 amended: extension matching is case-insensitive in source
enumeration only — a file whose extension differs in case from an
allowed spelling (such as `x.PNG`) is listed by `list_images` — while
both variant resolvers probe exactly the four lower-case spellings
`.png`, `.jpg`, `.jpeg`, `.webp`: every resolved variant is one of the
twelve lower-case-extension candidate names that exists in the
directory, so a variant file like `base_method_cam.PNG` is never
selected. -/
theorem ext_case_enumeration_vs_resolution :
    (∀ entries : List DirEntry, ∀ e ∈ entries, e.isFile = true →
      ALLOWED_EXTS.contains (strLower (pySuffix e.name)) = true →
      startsWithDotUnderscore e.name = false →
      e.name ∈ list_images (some entries)) ∧
    (list_images (some [⟨"x.PNG", true⟩]) = ["x.PNG"]) ∧
    (∀ dirRel base method p : String, ∀ files : List String,
      pick_single_image dirRel (some files) base method = some p →
      ∃ root ∈ roots3 base method, ∃ ext ∈ EXT_ORDER,
        files.contains (root ++ ext) = true ∧ p = dirRel ++ "/" ++ (root ++ ext)) ∧
    (∀ dirRel base method p : String, ∀ files : List String,
      ∀ s ∈ pick_method_images dirRel (some files) base method, s = some p →
      ∃ root ∈ roots3 base method, ∃ ext ∈ EXT_ORDER,
        files.contains (root ++ ext) = true ∧ p = dirRel ++ "/" ++ (root ++ ext)) := by
  refine ⟨?_, by decide, ?_, ?_⟩
  · intro entries e he hf hext hdot
    exact (mem_list_images entries e.name).2 ⟨e, he, rfl, hf, hext, hdot⟩
  · intro dirRel base method p files hp
    obtain ⟨c, hfind, hpe⟩ := Option.map_eq_some'.1 hp
    have hmemc : c ∈ candNames base method := List.mem_of_find?_eq_some hfind
    have hcont' := List.find?_some hfind
    unfold candNames at hmemc
    rw [List.mem_flatMap] at hmemc
    obtain ⟨root, hroot, hcm⟩ := hmemc
    rw [List.mem_map] at hcm
    obtain ⟨ext, hext, rfl⟩ := hcm
    have hcont : files.contains (root ++ ext) = true := hcont'
    exact ⟨root, hroot, ext, hext, hcont, hpe.symm⟩
  · intro dirRel base method p files s hs hsp
    unfold pick_method_images at hs
    rw [List.mem_map] at hs
    obtain ⟨root, hroot, hps⟩ := hs
    obtain ⟨ext, hfind, hpe⟩ := Option.map_eq_some'.1 (hps.trans hsp)
    have hcont' := List.find?_some hfind
    have hcont : files.contains (root ++ ext) = true := hcont'
    exact ⟨root, hroot, ext, List.mem_of_find?_eq_some hfind, hcont, hpe.symm⟩

theorem strAppendEmpty (s : String) : s ++ "" = s :=
  String.ext (by rw [String.data_append]; exact List.append_nil _)

/-- C10: pipeline 2's renderer is total on the empty row list — with no
rows it still produces a complete document whose two header joins are
empty (the `if rows else` guard), never reading a first row — and for
rows built by `build_rows`, every row's section labels equal the fixed
`SECTIONS` list in order, so the header read from the first row is
correct for every body row. -/
theorem render2_zero_rows_safe :
    (sectionLabelCells [] = "") ∧
    (subLabelCells [] = "") ∧
    (render_html2 [] = HEAD2_A ++ "0" ++ HEAD2_B ++ HEAD2_C ++ HEAD2_D ++ TAIL2) ∧
    (∀ fs : FS2, ∀ row ∈ build_rows2 fs, row.sections.map Prod.fst = SECTIONS) ∧
    (∀ fs : FS2, build_rows2 fs ≠ [] →
      sectionLabelCells (build_rows2 fs) =
        String.join (SECTIONS.map (fun sec =>
          "<th colspan=\"2\">" ++ htmlEscape sec ++ "</th>"))) := by
  refine ⟨rfl, rfl, ?_, ?_, ?_⟩
  · show HEAD2_A ++ "0" ++ HEAD2_B ++ "" ++ HEAD2_C ++ "" ++ HEAD2_D ++ "" ++ TAIL2 = _
    rw [strAppendEmpty, strAppendEmpty, strAppendEmpty]
  · intro fs row hrow
    rw [build_rows2, List.mem_map] at hrow
    obtain ⟨nm, _, rfl⟩ := hrow
    simp [List.map_map, Function.comp, SECTIONS]
  · intro fs hne
    cases himgs : list_images fs.chinese with
    | nil => exact absurd (by simp [build_rows2, himgs]) hne
    | cons nm rest =>
      rw [build_rows2, himgs, List.map_cons]
      simp only [sectionLabelCells]
      rw [List.map_map]
      rfl

end PatternViz
